import Mathlib

/-!
Verification of the chariott common-example build driver (`examples/common/build.rs`)
and of the schema compiler it invokes, against the repository's specification.

The build driver is embedded directly from `build.rs`.  The compiler it calls
(parser, import resolver, symbol table, code generator) is not part of this
repository's sources; those components are modelled from the specification,
marked `Modelled from the spec:` on each definition.
-/

namespace Chariott

/-- A compiler configuration, as produced by `configure()` in `build.rs`:
it carries the extern_path substitution table, a list of
(fully-qualified proto name, opaque target path) pairs. -/
structure Builder where
  extern_paths : List (String × String)
deriving DecidableEq, Repr

/-- `configure()`: the fresh default configuration with an empty
extern_path table. -/
def configure : Builder := ⟨[]⟩

/-- `.extern_path(proto_path, rust_path)` from `build.rs`: registers one
external-type substitution on the configuration. -/
def Builder.extern_path (b : Builder) (proto_path : String) (rust_path : String) : Builder :=
  { b with extern_paths := b.extern_paths ++ [(proto_path, rust_path)] }

/-- One invocation of `compile(protos, includes)`: the configuration it is
called on, the entry proto file paths, and the include (search) directories. -/
structure CompileCall where
  config : Builder
  protos : List String
  includes : List String
deriving DecidableEq, Repr

/-- The first `compile` invocation of `main` in `build.rs`: the streaming
proto, with the `.chariott.common.v1` extern_path binding registered. -/
def streamingCall : CompileCall :=
  { config := Builder.extern_path configure ".chariott.common.v1" "::chariott_common::proto::common"
  , protos := ["../../proto/chariott/streaming/v1/streaming.proto"]
  , includes := ["../../proto/"] }

/-- The second `compile` invocation of `main` in `build.rs`: the detection
proto, on a fresh default configuration. -/
def detectionCall : CompileCall :=
  { config := configure
  , protos := ["../applications/proto/examples/detection/v1/detection.proto"]
  , includes := ["../../proto/", "../applications/proto/examples/detection/v1/"] }

/-- `main` from `build.rs`, parameterised by the behaviour of the compiler
(`compile`).  The two invocations are sequenced with `?`: an error from the
first aborts the run before the second is attempted.  The returned trace lists
the invocations that were actually attempted, in order. -/
def main {ε : Type} (compile : CompileCall → Except ε Unit) :
    Except ε Unit × List CompileCall :=
  match compile streamingCall with
  | .error e => (.error e, [streamingCall])
  | .ok _ =>
    match compile detectionCall with
    | .error e => (.error e, [streamingCall, detectionCall])
    | .ok _ => (.ok (), [streamingCall, detectionCall])

/-- C2: if the first compilation invocation returns an error, `main`
propagates that error unchanged and the second invocation is never attempted:
the run's trace consists of the first invocation alone. -/
theorem main_fails_fast {ε : Type} (compile : CompileCall → Except ε Unit) (e : ε)
    (h : compile streamingCall = .error e) :
    main compile = (.error e, [streamingCall]) := by
  simp [main, h]

/-- Witness for `main_fails_fast`: a compiler that always fails. -/
theorem main_fails_fast_witness :
    main (fun _ => (.error "io error" : Except String Unit)) = (.error "io error", [streamingCall]) :=
  main_fails_fast (fun _ => .error "io error") "io error" rfl

/-- C3: every compilation invocation that `main` performs supplies exactly
three inputs — the ordered entry proto list, the ordered include-directory
list, and the extern_path substitution table (possibly empty) — with the
concrete values written in `build.rs`. -/
theorem main_invocation_inputs {ε : Type} (compile : CompileCall → Except ε Unit)
    (c : CompileCall) (hc : c ∈ (main compile).2) :
    (c.protos, c.includes, c.config.extern_paths) =
      (["../../proto/chariott/streaming/v1/streaming.proto"], ["../../proto/"],
        [(".chariott.common.v1", "::chariott_common::proto::common")]) ∨
    (c.protos, c.includes, c.config.extern_paths) =
      (["../applications/proto/examples/detection/v1/detection.proto"],
        ["../../proto/", "../applications/proto/examples/detection/v1/"], []) := by
  have hc' : c = streamingCall ∨ c = detectionCall := by
    unfold main at hc
    rcases h1 : compile streamingCall with e | u <;> rw [h1] at hc
    · simp at hc
      exact Or.inl hc
    · rcases h2 : compile detectionCall with e | u <;> rw [h2] at hc <;> simpa using hc
  rcases hc' with h | h <;> subst h
  · exact Or.inl rfl
  · exact Or.inr rfl

/-- Witness for `main_invocation_inputs`: the first invocation of a run with
an always-succeeding compiler. -/
theorem main_invocation_inputs_witness :
    (streamingCall.protos, streamingCall.includes, streamingCall.config.extern_paths) =
      (["../../proto/chariott/streaming/v1/streaming.proto"], ["../../proto/"],
        [(".chariott.common.v1", "::chariott_common::proto::common")]) ∨
    (streamingCall.protos, streamingCall.includes, streamingCall.config.extern_paths) =
      (["../applications/proto/examples/detection/v1/detection.proto"],
        ["../../proto/", "../applications/proto/examples/detection/v1/"], []) :=
  main_invocation_inputs (ε := Unit) (fun _ => .ok ()) streamingCall (by simp [main])

/-- C10: the two compilation invocations share no configuration state — the
second starts from the fresh default `configure` whose extern_path table is
empty, unaffected by the binding registered for the first invocation — and
`main` returns `Ok(())` exactly when both invocations succeed. -/
theorem main_invocations_independent {ε : Type} (compile : CompileCall → Except ε Unit) :
    detectionCall.config = configure ∧
    detectionCall.config.extern_paths = [] ∧
    ((main compile).1 = .ok () ↔
      compile streamingCall = .ok () ∧ compile detectionCall = .ok ()) := by
  refine ⟨rfl, rfl, ?_⟩
  unfold main
  rcases h1 : compile streamingCall with e | u
  · simp
  · rcases h2 : compile detectionCall with e | u <;> simp

/-- Witness for `main_invocations_independent`: an always-succeeding
compiler. -/
theorem main_invocations_independent_witness :
    detectionCall.config = configure ∧
    detectionCall.config.extern_paths = [] ∧
    (((main (fun _ => (.ok () : Except Unit Unit)))).1 = .ok () ↔
      (fun _ => (.ok () : Except Unit Unit)) streamingCall = .ok () ∧
      (fun _ => (.ok () : Except Unit Unit)) detectionCall = .ok ()) :=
  main_invocations_independent (ε := Unit) (fun _ => .ok ())

/-- Modelled from the spec: repetition mode of a field (the compiler core is
not among this repository's sources). -/
inductive Mode
  | singular
  | repeated
  | optionalMode
deriving DecidableEq, Repr

/-- Modelled from the spec: a type reference as written in a schema file,
either a primitive kind or a fully-qualified name still to be resolved. -/
inductive TypeRef
  | primitive (name : String)
  | named (name : String)
deriving DecidableEq, Repr

/-- Modelled from the spec: a message field — name, field number, type
reference and repetition mode. -/
structure FieldSpec where
  name : String
  number : Nat
  type : TypeRef
  mode : Mode
deriving DecidableEq, Repr

/-- Modelled from the spec: the streaming mode of a service method. -/
inductive Streaming
  | unary
  | clientStreaming
  | serverStreaming
  | bidirectional
deriving DecidableEq, Repr

/-- Modelled from the spec: a service method — request and response type
references and streaming mode. -/
structure MethodSpec where
  name : String
  request : TypeRef
  response : TypeRef
  streaming : Streaming
deriving DecidableEq, Repr

/-- Modelled from the spec: a top-level declaration of a schema file. -/
inductive Declaration
  | message (name : String) (fields : List FieldSpec)
  | enum (name : String) (variants : List (String × Nat))
  | service (name : String) (methods : List MethodSpec)
deriving DecidableEq, Repr

/-- The local name of a declaration. -/
def Declaration.name : Declaration → String
  | .message n _ => n
  | .enum n _ => n
  | .service n _ => n

/-- Modelled from the spec: a parsed schema file — package namespace, the
raw import path strings and top-level declarations in order. -/
structure SchemaFile where
  package : List String
  imports : List String
  decls : List Declaration
deriving DecidableEq, Repr

/-- The fully-qualified name of a declaration: package segments joined with
the local name. -/
def fullyQualified (pkg : List String) (n : String) : String :=
  String.intercalate "." (pkg ++ [n])

/-- Modelled from the spec: errors of the import-resolution phase. -/
inductive ImportError
  | missingEntry (path : String)
  | unresolvedImport (importer : String) (imp : String)
deriving DecidableEq, Repr

/-- Modelled from the spec: the filesystem visible to the import resolver — a
finite association of canonical paths to already-parsed schema files (parsing
of one buffer is pure, so it is folded into the association). -/
abbrev FileSystem := List (String × SchemaFile)

/-- Modelled from the spec: resolve one import path against the search
directories in order; the first directory containing the file wins.  Search
directories carry their trailing separator, as they do in `build.rs`. -/
def resolveImport (fs : FileSystem) (dirs : List String) (imp : String) :
    Option String :=
  match dirs with
  | [] => none
  | d :: rest =>
    if (fs.lookup (d ++ imp)).isSome then some (d ++ imp) else resolveImport fs rest imp

/-- Resolve every import of one file, failing on the first import that no
search directory contains. -/
def resolveImportsOf (fs : FileSystem) (dirs : List String) (importer : String) :
    List String → Except ImportError (List String)
  | [] => .ok []
  | imp :: rest =>
    match resolveImport fs dirs imp with
    | none => .error (.unresolvedImport importer imp)
    | some p =>
      match resolveImportsOf fs dirs importer rest with
      | .error e => .error e
      | .ok ps => .ok (p :: ps)

/-- The number of known paths not yet visited: the termination measure of the
work-queue loop. -/
def unvisitedCount (fs : FileSystem) (visited : List String) : Nat :=
  ((fs.map Prod.fst).filter (fun p => decide (p ∉ visited))).length

lemma mem_keys_of_lookup_eq_some {fs : FileSystem} {p : String} {f : SchemaFile}
    (h : fs.lookup p = some f) : p ∈ fs.map Prod.fst := by
  induction fs with
  | nil => simp [List.lookup] at h
  | cons a t ih =>
    rw [List.lookup] at h
    by_cases hpa : p = a.1
    · exact List.mem_map.2 ⟨a, List.mem_cons_self a t, hpa.symm⟩
    · have : (p == a.1) = false := beq_false_of_ne hpa
      rw [this] at h
      exact List.mem_cons_of_mem _ (ih h)

lemma unvisitedCount_lt {fs : FileSystem} {visited : List String} {p : String}
    (hmem : p ∈ fs.map Prod.fst) (hv : p ∉ visited) :
    unvisitedCount fs (p :: visited) < unvisitedCount fs visited := by
  unfold unvisitedCount
  set l := fs.map Prod.fst with hl
  have hsub : List.Sublist (l.filter (fun x => decide (x ∉ p :: visited)))
      (l.filter (fun x => decide (x ∉ visited))) := by
    apply List.monotone_filter_right
    intro a ha
    simp only [decide_eq_true_eq] at ha ⊢
    intro hin
    exact ha (List.mem_cons_of_mem _ hin)
  have hle := hsub.length_le
  rcases Nat.lt_or_ge (l.filter (fun x => decide (x ∉ p :: visited))).length
      (l.filter (fun x => decide (x ∉ visited))).length with hlt | hge
  · exact hlt
  · exfalso
    have heq : (l.filter (fun x => decide (x ∉ p :: visited))).length =
        (l.filter (fun x => decide (x ∉ visited))).length := le_antisymm hle hge
    have := hsub.eq_of_length heq
    have hp1 : p ∈ l.filter (fun x => decide (x ∉ visited)) := by
      simp only [List.mem_filter, decide_eq_true_eq]
      exact ⟨hmem, hv⟩
    rw [← this] at hp1
    simp only [List.mem_filter, decide_eq_true_eq] at hp1
    exact hp1.2 (List.mem_cons_self p visited)

/-- Modelled from the spec: the work-queue loop of the import resolver.  A
visited-set keyed by canonical path guarantees each file is parsed at most
once; newly resolved imports are appended to the queue.  `acc` collects the
files in the order they were parsed. -/
def resolveLoop (fs : FileSystem) (dirs : List String)
    (visited : List String) (acc : List (String × SchemaFile))
    (queue : List String) : Except ImportError (List (String × SchemaFile)) :=
  match queue with
  | [] => .ok acc.reverse
  | p :: rest =>
    if hp : p ∈ visited then resolveLoop fs dirs visited acc rest
    else
      match hf : fs.lookup p with
      | none => .error (.missingEntry p)
      | some file =>
        match resolveImportsOf fs dirs p file.imports with
        | .error e => .error e
        | .ok next =>
          resolveLoop fs dirs (p :: visited) ((p, file) :: acc) (rest ++ next)
termination_by (unvisitedCount fs visited, queue.length)
decreasing_by
  · exact Prod.Lex.right _ (Nat.lt_succ_self _)
  · exact Prod.Lex.left _ _ (unvisitedCount_lt (mem_keys_of_lookup_eq_some hf) hp)

/-- Modelled from the spec: the import resolver — discover and parse every
schema file transitively reachable from the entry files, each exactly once. -/
def resolveAll (fs : FileSystem) (dirs : List String) (entries : List String) :
    Except ImportError (List (String × SchemaFile)) :=
  resolveLoop fs dirs [] [] entries

/-- C4: import resolution against the ordered search-directory list is
first-match-wins — when every directory before `d` lacks the import target
and `d` holds it, the file under `d` is the one resolved and its content `f`
the one parsed, shadowing same-named files in later directories `ds2`. -/
theorem resolveImport_first_match (fs : FileSystem) (ds1 ds2 : List String)
    (d imp : String) (f : SchemaFile)
    (h1 : ∀ d' ∈ ds1, fs.lookup (d' ++ imp) = none)
    (h2 : fs.lookup (d ++ imp) = some f) :
    resolveImport fs (ds1 ++ d :: ds2) imp = some (d ++ imp) ∧
    fs.lookup (d ++ imp) = some f := by
  refine ⟨?_, h2⟩
  induction ds1 with
  | nil => simp [resolveImport, h2]
  | cons a t ih =>
    have ha := h1 a (List.mem_cons_self a t)
    simp only [List.cons_append, resolveImport, ha, Option.isSome_none,
      Bool.false_eq_true, if_false]
    exact ih fun d' hd' => h1 d' (List.mem_cons_of_mem a hd')

/-- A schema file planted in the first search directory for the shadowing
witness. -/
def shadowFileA : SchemaFile := { package := ["first"], imports := [], decls := [] }

/-- A same-named schema file planted in the second search directory for the
shadowing witness. -/
def shadowFileB : SchemaFile := { package := ["second"], imports := [], decls := [] }

/-- Witness for `resolveImport_first_match`: `x.schema` exists under both
`one/` and `two/`; the copy under the earlier directory `one/` wins. -/
theorem resolveImport_first_match_witness :
    resolveImport [("one/x.schema", shadowFileA), ("two/x.schema", shadowFileB)]
        (([] : List String) ++ "one/" :: ["two/"]) "x.schema" = some ("one/" ++ "x.schema") ∧
    List.lookup ("one/" ++ "x.schema")
        [("one/x.schema", shadowFileA), ("two/x.schema", shadowFileB)] = some shadowFileA :=
  resolveImport_first_match [("one/x.schema", shadowFileA), ("two/x.schema", shadowFileB)]
    [] ["two/"] "one/" "x.schema" shadowFileA (by simp) (by decide)

lemma mem_of_lookup_eq_some {fs : FileSystem} {p : String} {f : SchemaFile}
    (h : fs.lookup p = some f) : (p, f) ∈ fs := by
  induction fs with
  | nil => simp [List.lookup] at h
  | cons a t ih =>
    obtain ⟨k, v⟩ := a
    rw [List.lookup] at h
    by_cases hpa : p = k
    · subst hpa
      simp only [beq_self_eq_true] at h
      injection h with h
      subst h
      exact List.mem_cons_self _ _
    · simp only [beq_false_of_ne hpa] at h
      exact List.mem_cons_of_mem _ (ih h)

lemma resolveImport_lookup_isSome {fs : FileSystem} {dirs : List String} {imp q : String}
    (h : resolveImport fs dirs imp = some q) : (fs.lookup q).isSome = true := by
  induction dirs with
  | nil => simp [resolveImport] at h
  | cons d rest ih =>
    rw [resolveImport] at h
    by_cases hd : (fs.lookup (d ++ imp)).isSome = true
    · rw [if_pos hd] at h
      cases h
      exact hd
    · rw [if_neg hd] at h
      exact ih h

lemma resolveImportsOf_ok {fs : FileSystem} {dirs : List String} {importer : String} :
    ∀ imps, (∀ imp ∈ imps, (resolveImport fs dirs imp).isSome = true) →
      ∃ ps, resolveImportsOf fs dirs importer imps = .ok ps ∧
        ∀ q ∈ ps, (fs.lookup q).isSome = true := by
  intro imps
  induction imps with
  | nil => exact fun _ => ⟨[], rfl, by simp⟩
  | cons imp rest ih =>
    intro h
    obtain ⟨q, hq⟩ := Option.isSome_iff_exists.1 (h imp (List.mem_cons_self imp rest))
    obtain ⟨ps, hps, hmem⟩ := ih fun i hi => h i (List.mem_cons_of_mem imp hi)
    refine ⟨q :: ps, ?_, ?_⟩
    · rw [resolveImportsOf, hq, hps]
    · intro r hr
      rcases List.mem_cons.1 hr with hr | hr
      · rw [hr]
        exact resolveImport_lookup_isSome hq
      · exact hmem r hr

lemma resolveImportsOf_mem {fs : FileSystem} {dirs : List String} {importer : String} :
    ∀ {imps ps : List String}, resolveImportsOf fs dirs importer imps = .ok ps →
      ∀ imp ∈ imps, ∃ q, resolveImport fs dirs imp = some q ∧ q ∈ ps := by
  intro imps
  induction imps with
  | nil =>
    intro ps _ imp h
    cases h
  | cons a t ih =>
    intro ps h imp hmem
    rw [resolveImportsOf] at h
    split at h
    · cases h
    · rename_i q hq
      split at h
      · cases h
      · rename_i qs hqs
        injection h with h
        subst h
        rcases List.mem_cons.1 hmem with rfl | hmem
        · exact ⟨q, hq, List.mem_cons_self _ _⟩
        · obtain ⟨r, hr1, hr2⟩ := ih hqs imp hmem
          exact ⟨r, hr1, List.mem_cons_of_mem _ hr2⟩

lemma resolveLoop_ok (fs : FileSystem) (dirs : List String)
    (Hclosed : ∀ pf ∈ fs, ∀ imp ∈ pf.2.imports, (resolveImport fs dirs imp).isSome = true) :
    ∀ visited acc queue,
      (∀ p ∈ queue, (fs.lookup p).isSome = true) →
      visited.Nodup → acc.map Prod.fst = visited →
      (∀ pf ∈ acc, fs.lookup pf.1 = some pf.2) →
      (∀ pf ∈ acc, ∀ imp ∈ pf.2.imports,
        ∃ q, resolveImport fs dirs imp = some q ∧ (q ∈ visited ∨ q ∈ queue)) →
      ∃ l, resolveLoop fs dirs visited acc queue = .ok l ∧
        (l.map Prod.fst).Nodup ∧
        (∀ p ∈ visited, p ∈ l.map Prod.fst) ∧
        (∀ p ∈ queue, p ∈ l.map Prod.fst) ∧
        (∀ pf ∈ l, fs.lookup pf.1 = some pf.2 ∧
          ∀ imp ∈ pf.2.imports, ∃ q, resolveImport fs dirs imp = some q ∧
            q ∈ l.map Prod.fst) := by
  intro visited acc queue
  induction visited, acc, queue using resolveLoop.induct fs dirs with
  | case1 visited acc =>
    intro _ hnd hav hlk him
    refine ⟨acc.reverse, by rw [resolveLoop], ?_, ?_, ?_, ?_⟩
    · rw [List.map_reverse, hav]
      exact List.nodup_reverse.2 hnd
    · intro p hp
      rw [List.map_reverse, List.mem_reverse, hav]
      exact hp
    · intro p hp
      cases hp
    · intro pf hpf
      rw [List.mem_reverse] at hpf
      refine ⟨hlk pf hpf, ?_⟩
      intro imp himp
      obtain ⟨q, hq, hqm⟩ := him pf hpf imp himp
      rcases hqm with hqm | hqm
      · refine ⟨q, hq, ?_⟩
        rw [List.map_reverse, List.mem_reverse, hav]
        exact hqm
      · cases hqm
  | case2 visited acc d rest hd ih =>
    intro hq hnd hav hlk him
    have him' : ∀ pf ∈ acc, ∀ imp ∈ pf.2.imports,
        ∃ q, resolveImport fs dirs imp = some q ∧ (q ∈ visited ∨ q ∈ rest) := by
      intro pf hpf imp himp
      obtain ⟨q, hq', hqm⟩ := him pf hpf imp himp
      rcases hqm with hqm | hqm
      · exact ⟨q, hq', Or.inl hqm⟩
      · rcases List.mem_cons.1 hqm with rfl | hqm
        · exact ⟨q, hq', Or.inl hd⟩
        · exact ⟨q, hq', Or.inr hqm⟩
    obtain ⟨l, hres, h2, h3, h4, h5⟩ :=
      ih (fun p hp => hq p (List.mem_cons_of_mem d hp)) hnd hav hlk him'
    refine ⟨l, ?_, h2, h3, ?_, h5⟩
    · rw [resolveLoop, dif_pos hd]
      exact hres
    · intro p hp
      rcases List.mem_cons.1 hp with rfl | hp
      · exact h3 p hd
      · exact h4 p hp
  | case3 visited acc d rest hd hlook =>
    intro hq _ _ _ _
    have := hq d (List.mem_cons_self d rest)
    rw [hlook] at this
    simp at this
  | case4 visited acc d rest hd file hlook e herr =>
    intro _ _ _ _ _
    obtain ⟨ps, hok, _⟩ := resolveImportsOf_ok file.imports
      (Hclosed (d, file) (mem_of_lookup_eq_some hlook))
    rw [hok] at herr
    cases herr
  | case5 visited acc d rest hd file hlook ps hok ih =>
    intro hq hnd hav hlk him
    obtain ⟨ps', hok', hmem'⟩ := resolveImportsOf_ok file.imports
      (Hclosed (d, file) (mem_of_lookup_eq_some hlook))
    rw [hok] at hok'
    injection hok' with hok'
    subst hok'
    have hq' : ∀ p ∈ rest ++ ps, (fs.lookup p).isSome = true := by
      intro p hp
      rcases List.mem_append.1 hp with hp | hp
      · exact hq p (List.mem_cons_of_mem d hp)
      · exact hmem' p hp
    have hlk' : ∀ pf ∈ (d, file) :: acc, fs.lookup pf.1 = some pf.2 := by
      intro pf hpf
      rcases List.mem_cons.1 hpf with rfl | hpf
      · exact hlook
      · exact hlk pf hpf
    have him' : ∀ pf ∈ (d, file) :: acc, ∀ imp ∈ pf.2.imports,
        ∃ q, resolveImport fs dirs imp = some q ∧ (q ∈ d :: visited ∨ q ∈ rest ++ ps) := by
      intro pf hpf imp himp
      rcases List.mem_cons.1 hpf with rfl | hpf
      · obtain ⟨q, hq1, hq2⟩ := resolveImportsOf_mem hok imp himp
        exact ⟨q, hq1, Or.inr (List.mem_append.2 (Or.inr hq2))⟩
      · obtain ⟨q, hq1, hq2⟩ := him pf hpf imp himp
        rcases hq2 with hq2 | hq2
        · exact ⟨q, hq1, Or.inl (List.mem_cons_of_mem _ hq2)⟩
        · rcases List.mem_cons.1 hq2 with rfl | hq2
          · exact ⟨q, hq1, Or.inl (List.mem_cons_self _ _)⟩
          · exact ⟨q, hq1, Or.inr (List.mem_append.2 (Or.inl hq2))⟩
    obtain ⟨l, hres, h2, h3, h4, h5⟩ :=
      ih hq' (List.nodup_cons.2 ⟨hd, hnd⟩) (by rw [List.map_cons, hav]) hlk' him'
    refine ⟨l, ?_, h2, ?_, ?_, h5⟩
    · rw [resolveLoop, dif_neg hd]
      split
      · rename_i heq
        rw [hlook] at heq
        cases heq
      · rename_i file' heq
        rw [hlook] at heq
        injection heq with heq
        subst heq
        split
        · rename_i e herr
          rw [hok] at herr
          cases herr
        · rename_i ns hns
          rw [hok] at hns
          injection hns with hns
          subst hns
          exact hres
    · intro p hp
      exact h3 p (List.mem_cons_of_mem _ hp)
    · intro p hp
      rcases List.mem_cons.1 hp with rfl | hp
      · exact h3 p (List.mem_cons_self _ _)
      · exact h4 p (List.mem_append.2 (Or.inl hp))

/-- C6: whenever every import of every file in the schema set resolves
against the search directories — in particular on sets containing import
cycles — the import resolver terminates with success, and the registry of
parsed files holds each path at most once, contains every entry file, and is
closed under resolved imports: every file reachable from the entries is
parsed exactly once. -/
theorem resolveAll_cycles_terminate (fs : FileSystem) (dirs : List String)
    (entries : List String)
    (Hclosed : ∀ pf ∈ fs, ∀ imp ∈ pf.2.imports, (resolveImport fs dirs imp).isSome = true)
    (Hentries : ∀ p ∈ entries, (fs.lookup p).isSome = true) :
    ∃ l, resolveAll fs dirs entries = .ok l ∧ (l.map Prod.fst).Nodup ∧
      (∀ p ∈ entries, p ∈ l.map Prod.fst) ∧
      (∀ pf ∈ l, fs.lookup pf.1 = some pf.2 ∧
        ∀ imp ∈ pf.2.imports, ∃ q, resolveImport fs dirs imp = some q ∧
          q ∈ l.map Prod.fst) := by
  obtain ⟨l, h1, h2, _, h4, h5⟩ := resolveLoop_ok fs dirs Hclosed [] [] entries Hentries
    List.nodup_nil rfl (fun pf hpf => absurd hpf (List.not_mem_nil pf))
    (fun pf hpf => absurd hpf (List.not_mem_nil pf))
  exact ⟨l, h1, h2, h4, h5⟩

/-- One half of a two-file import cycle: `a.schema` imports `b.schema`. -/
def cycleFileA : SchemaFile := { package := ["pkga"], imports := ["b.schema"], decls := [] }

/-- The other half of the cycle: `b.schema` imports `a.schema`. -/
def cycleFileB : SchemaFile := { package := ["pkgb"], imports := ["a.schema"], decls := [] }

/-- The cyclic schema set: A imports B and B imports A. -/
def cycleFs : FileSystem := [("a.schema", cycleFileA), ("b.schema", cycleFileB)]

/-- Witness for `resolveAll_cycles_terminate`: the two-file cycle terminates
with success, the entry is parsed, the registry is duplicate-free and closed
under the cycle's imports — both files parsed exactly once. -/
theorem resolveAll_cycles_terminate_witness :
    ∃ l, resolveAll cycleFs [""] ["a.schema"] = .ok l ∧ (l.map Prod.fst).Nodup ∧
      (∀ p ∈ ["a.schema"], p ∈ l.map Prod.fst) ∧
      (∀ pf ∈ l, cycleFs.lookup pf.1 = some pf.2 ∧
        ∀ imp ∈ pf.2.imports, ∃ q, resolveImport cycleFs [""] imp = some q ∧
          q ∈ l.map Prod.fst) :=
  resolveAll_cycles_terminate cycleFs [""] ["a.schema"] (by decide) (by decide)

/-- Modelled from the spec: errors of the symbol-table / type-resolution
phase. -/
inductive ResolutionError
  | duplicateDeclaration (name : String)
  | duplicateFieldNumber (message : String) (number : Nat)
  | ambiguousBinding (name : String)
  | unresolvedReference (name : String)
deriving DecidableEq, Repr

/-- Modelled from the spec: a symbol-table entry — a local declaration or an
external binding's opaque target path. -/
inductive SymbolEntry
  | localDecl (d : Declaration)
  | externalTarget (target : String)
deriving DecidableEq, Repr

/-- Every top-level declaration of the schema set, keyed by its
fully-qualified name. -/
def localDeclarations (files : List SchemaFile) : List (String × Declaration) :=
  files.flatMap fun f => f.decls.map fun d => (fullyQualified f.package d.name, d)

/-- The first element of the list that occurs again later, if any. -/
def firstDup {α : Type} [DecidableEq α] : List α → Option α
  | [] => none
  | x :: xs => if x ∈ xs then some x else firstDup xs

/-- The first duplicated field number of a declaration, if any (only messages
carry numbered fields). -/
def dupFieldNumber : Declaration → Option Nat
  | .message _ fields => firstDup (fields.map FieldSpec.number)
  | .enum _ _ => none
  | .service _ _ => none

/-- Modelled from the spec, resolution step 1: register every fully-qualified
declaration name; a name declared twice across the set is a
`ResolutionError`. -/
def checkLocalNames (files : List SchemaFile) : Except ResolutionError Unit :=
  match firstDup ((localDeclarations files).map Prod.fst) with
  | some n => .error (.duplicateDeclaration n)
  | none => .ok ()

/-- Modelled from the spec, resolution step 2: register the external
bindings; a name present both as a local declaration and as a binding is
ambiguous — a `ResolutionError`, never a silent preference. -/
def checkBindings (files : List SchemaFile) (bindings : List (String × String)) :
    Except ResolutionError Unit :=
  match bindings.find? (fun nb => ((localDeclarations files).map Prod.fst).contains nb.1) with
  | some nb => .error (.ambiguousBinding nb.1)
  | none => .ok ()

/-- Modelled from the spec: duplicate field numbers within one message are a
hard error, detected in one place for the whole resolved set. -/
def checkFieldNumbers (files : List SchemaFile) : Except ResolutionError Unit :=
  match (localDeclarations files).find? (fun nd => (dupFieldNumber nd.2).isSome) with
  | some nd => .error (.duplicateFieldNumber nd.1 ((dupFieldNumber nd.2).getD 0))
  | none => .ok ()

/-- Modelled from the spec: the symbol table — every local declaration under
its fully-qualified name, followed by every external binding. -/
def symbolTable (files : List SchemaFile) (bindings : List (String × String)) :
    List (String × SymbolEntry) :=
  (localDeclarations files).map (fun nd => (nd.1, SymbolEntry.localDecl nd.2)) ++
    bindings.map fun nb => (nb.1, SymbolEntry.externalTarget nb.2)

/-- Modelled from the spec: a resolved type reference — primitive, a pointer
to a canonical local declaration, or an external binding with its opaque
target path. -/
inductive ResolvedType
  | primitive (name : String)
  | localRef (name : String)
  | externalRef (name : String) (target : String)
deriving DecidableEq, Repr

/-- Whether a resolved reference points at an external binding. -/
def ResolvedType.isExternal : ResolvedType → Bool
  | .externalRef _ _ => true
  | _ => false

/-- Modelled from the spec: bind one type reference through the symbol table;
an unresolved name is a fatal `ResolutionError`, never silently dropped. -/
def resolveTypeRef (st : List (String × SymbolEntry)) :
    TypeRef → Except ResolutionError ResolvedType
  | .primitive n => .ok (.primitive n)
  | .named n =>
    match st.lookup n with
    | some (.localDecl _) => .ok (.localRef n)
    | some (.externalTarget t) => .ok (.externalRef n t)
    | none => .error (.unresolvedReference n)

/-- A message field after type resolution. -/
structure ResolvedField where
  name : String
  number : Nat
  type : ResolvedType
  mode : Mode
deriving DecidableEq, Repr

/-- A service method after type resolution. -/
structure ResolvedMethod where
  name : String
  request : ResolvedType
  response : ResolvedType
  streaming : Streaming
deriving DecidableEq, Repr

/-- A declaration after type resolution, keyed by fully-qualified name. -/
inductive ResolvedDecl
  | message (name : String) (fields : List ResolvedField)
  | enum (name : String) (variants : List (String × Nat))
  | service (name : String) (methods : List ResolvedMethod)
deriving DecidableEq, Repr

/-- The fully-qualified name a resolved declaration is keyed by. -/
def ResolvedDecl.name : ResolvedDecl → String
  | .message n _ => n
  | .enum n _ => n
  | .service n _ => n

/-- Whether a resolved declaration mentions any external binding. -/
def ResolvedDecl.usesExternal : ResolvedDecl → Bool
  | .message _ fields => fields.any fun f => f.type.isExternal
  | .enum _ _ => false
  | .service _ methods =>
    methods.any fun m => m.request.isExternal || m.response.isExternal

/-- Resolve every field of one message, in declared order. -/
def resolveFields (st : List (String × SymbolEntry)) :
    List FieldSpec → Except ResolutionError (List ResolvedField)
  | [] => .ok []
  | f :: rest =>
    match resolveTypeRef st f.type with
    | .error e => .error e
    | .ok t =>
      match resolveFields st rest with
      | .error e => .error e
      | .ok ts => .ok ({ name := f.name, number := f.number, type := t, mode := f.mode } :: ts)

/-- Resolve every method of one service, in declared order. -/
def resolveMethods (st : List (String × SymbolEntry)) :
    List MethodSpec → Except ResolutionError (List ResolvedMethod)
  | [] => .ok []
  | m :: rest =>
    match resolveTypeRef st m.request with
    | .error e => .error e
    | .ok rq =>
      match resolveTypeRef st m.response with
      | .error e => .error e
      | .ok rs =>
        match resolveMethods st rest with
        | .error e => .error e
        | .ok ms =>
          .ok ({ name := m.name, request := rq, response := rs, streaming := m.streaming } :: ms)

/-- Resolve one declaration against the symbol table. -/
def resolveDecl (st : List (String × SymbolEntry)) (nd : String × Declaration) :
    Except ResolutionError ResolvedDecl :=
  match nd.2 with
  | .message _ fields =>
    match resolveFields st fields with
    | .error e => .error e
    | .ok fs => .ok (.message nd.1 fs)
  | .enum _ variants => .ok (.enum nd.1 variants)
  | .service _ methods =>
    match resolveMethods st methods with
    | .error e => .error e
    | .ok ms => .ok (.service nd.1 ms)

/-- Resolve every declaration of the set, in registry order. -/
def resolveDecls (st : List (String × SymbolEntry)) :
    List (String × Declaration) → Except ResolutionError (List ResolvedDecl)
  | [] => .ok []
  | nd :: rest =>
    match resolveDecl st nd with
    | .error e => .error e
    | .ok rd =>
      match resolveDecls st rest with
      | .error e => .error e
      | .ok rds => .ok (rd :: rds)

/-- Modelled from the spec: the whole symbol-table / type-resolution phase —
two-pass: register all names and the bindings, check field numbers, then
bind every reference. -/
def resolveSchemaSet (files : List SchemaFile) (bindings : List (String × String)) :
    Except ResolutionError (List ResolvedDecl) :=
  match checkLocalNames files with
  | .error e => .error e
  | .ok _ =>
    match checkBindings files bindings with
    | .error e => .error e
    | .ok _ =>
      match checkFieldNumbers files with
      | .error e => .error e
      | .ok _ => resolveDecls (symbolTable files bindings) (localDeclarations files)

/-- The target-language text a resolved reference renders to: an external
binding renders its opaque target path verbatim. -/
def renderType : ResolvedType → String
  | .primitive n => n
  | .localRef n => n
  | .externalRef _ t => t

/-- Modelled from the spec: one emitted artifact — a type definition per
local message, an enumeration definition, or a client/server stub pair per
service. -/
inductive GenItem
  | typeDef (name : String) (fields : List (String × String))
  | enumDef (name : String) (variants : List (String × Nat))
  | clientStub (name : String) (methods : List (String × String × String × Streaming))
  | serverStub (name : String) (methods : List (String × String × String × Streaming))
deriving DecidableEq, Repr

/-- The type name an item locally defines, when it defines one (stubs define
no type). -/
def GenItem.definedType : GenItem → Option String
  | .typeDef n _ => some n
  | .enumDef n _ => some n
  | .clientStub _ _ => none
  | .serverStub _ _ => none

/-- Modelled from the spec: generate the artifacts of one resolved
declaration, fields and methods in declared order. -/
def genDecl : ResolvedDecl → List GenItem
  | .message n fields => [.typeDef n (fields.map fun f => (f.name, renderType f.type))]
  | .enum n variants => [.enumDef n variants]
  | .service n methods =>
    [.clientStub n (methods.map fun m => (m.name, renderType m.request, renderType m.response, m.streaming)),
     .serverStub n (methods.map fun m => (m.name, renderType m.request, renderType m.response, m.streaming))]

/-- Modelled from the spec: the code generator, a pure walk of the resolved
declarations. -/
def generate (rds : List ResolvedDecl) : List GenItem :=
  rds.flatMap genDecl

/-- Modelled from the spec: resolution followed by generation for one schema
set. -/
def compileSchemaSet (files : List SchemaFile) (bindings : List (String × String)) :
    Except ResolutionError (List GenItem) :=
  match resolveSchemaSet files bindings with
  | .error e => .error e
  | .ok rds => .ok (generate rds)

/-- Modelled from the spec: an error of any phase of one compilation run. -/
inductive CompileError
  | importPhase (e : ImportError)
  | resolutionPhase (e : ResolutionError)
deriving DecidableEq, Repr

/-- Modelled from the spec: one whole compilation run — import resolution
from the entry files, then symbol-table construction, type resolution and
code generation. -/
def compileProtos (fs : FileSystem) (entries : List String) (dirs : List String)
    (bindings : List (String × String)) : Except CompileError (List GenItem) :=
  match resolveAll fs dirs entries with
  | .error e => .error (.importPhase e)
  | .ok parsed =>
    match compileSchemaSet (parsed.map Prod.snd) bindings with
    | .error e => .error (.resolutionPhase e)
    | .ok out => .ok out

lemma lookup_mem {β : Type} {l : List (String × β)} {p : String} {v : β}
    (h : l.lookup p = some v) : (p, v) ∈ l := by
  induction l with
  | nil => simp [List.lookup] at h
  | cons a t ih =>
    obtain ⟨k, w⟩ := a
    rw [List.lookup] at h
    by_cases hpa : p = k
    · subst hpa
      simp only [beq_self_eq_true] at h
      injection h with h
      subst h
      exact List.mem_cons_self _ _
    · simp only [beq_false_of_ne hpa] at h
      exact List.mem_cons_of_mem _ (ih h)

lemma lookup_append_right {β : Type} {l1 l2 : List (String × β)} {n : String}
    (h : n ∉ l1.map Prod.fst) : (l1 ++ l2).lookup n = l2.lookup n := by
  induction l1 with
  | nil => rfl
  | cons a t ih =>
    obtain ⟨k, v⟩ := a
    simp only [List.map_cons, List.mem_cons] at h
    push_neg at h
    rw [List.cons_append, List.lookup]
    rw [beq_false_of_ne h.1]
    exact ih h.2

lemma lookup_map_pair {β γ : Type} (g : β → γ) (l : List (String × β)) (n : String) :
    (l.map fun kv => (kv.1, g kv.2)).lookup n = (l.lookup n).map g := by
  induction l with
  | nil => rfl
  | cons a t ih =>
    obtain ⟨k, v⟩ := a
    rw [List.map_cons, List.lookup, List.lookup]
    cases hna : (n == k) with
    | true => rfl
    | false => exact ih

lemma firstDup_eq_none_iff {α : Type} [DecidableEq α] :
    ∀ l : List α, firstDup l = none ↔ l.Nodup := by
  intro l
  induction l with
  | nil => simp [firstDup]
  | cons x xs ih =>
    rw [firstDup]
    by_cases hx : x ∈ xs
    · simp [hx]
    · simp [hx, ih]

lemma checkBindings_ok {files : List SchemaFile} {bindings : List (String × String)}
    (h : checkBindings files bindings = .ok ()) :
    ∀ nb ∈ bindings, nb.1 ∉ (localDeclarations files).map Prod.fst := by
  intro nb hnb hmem
  unfold checkBindings at h
  split at h
  · cases h
  · rename_i hfind
    have hnp := List.find?_eq_none.1 hfind nb hnb
    exact hnp (by simpa using hmem)

lemma resolveSchemaSet_ok {files : List SchemaFile} {bindings : List (String × String)}
    {rds : List ResolvedDecl} (h : resolveSchemaSet files bindings = .ok rds) :
    checkLocalNames files = .ok () ∧ checkBindings files bindings = .ok () ∧
    checkFieldNumbers files = .ok () ∧
    resolveDecls (symbolTable files bindings) (localDeclarations files) = .ok rds := by
  unfold resolveSchemaSet at h
  split at h
  · cases h
  · rename_i u h1
    cases u
    split at h
    · cases h
    · rename_i u h2
      cases u
      split at h
      · cases h
      · rename_i u h3
        cases u
        exact ⟨h1, h2, h3, h⟩

/-- C5: compilation is deterministic — two runs of the whole pipeline on
identical inputs (same parsed filesystem, same entry files, same search
directories, same external bindings) produce identical generated output. -/
theorem compileProtos_deterministic (fs1 fs2 : FileSystem)
    (entries1 entries2 dirs1 dirs2 : List String)
    (b1 b2 : List (String × String))
    (hfs : fs1 = fs2) (he : entries1 = entries2) (hd : dirs1 = dirs2) (hb : b1 = b2) :
    compileProtos fs1 entries1 dirs1 b1 = compileProtos fs2 entries2 dirs2 b2 := by
  rw [hfs, he, hd, hb]

/-- Witness for `compileProtos_deterministic`: two runs on the cyclic schema
set. -/
theorem compileProtos_deterministic_witness :
    compileProtos cycleFs ["a.schema"] [""] [] = compileProtos cycleFs ["a.schema"] [""] [] :=
  compileProtos_deterministic cycleFs cycleFs ["a.schema"] ["a.schema"] [""] [""] [] []
    rfl rfl rfl rfl

/-- C7: a fully-qualified name present both as a local declaration and as a
key of the external-binding table makes resolution fail with a
`ResolutionError`; neither side is silently preferred. -/
theorem local_and_binding_collision (files : List SchemaFile)
    (bindings : List (String × String)) (n : String)
    (hl : n ∈ (localDeclarations files).map Prod.fst)
    (hb : n ∈ bindings.map Prod.fst) :
    ∃ e, resolveSchemaSet files bindings = .error e := by
  cases hres : resolveSchemaSet files bindings with
  | error e => exact ⟨e, rfl⟩
  | ok rds =>
    exfalso
    obtain ⟨_, h2, _, _⟩ := resolveSchemaSet_ok hres
    obtain ⟨nb, hnb, hfst⟩ := List.mem_map.1 hb
    exact checkBindings_ok h2 nb hnb (hfst ▸ hl)

/-- A schema file declaring `p.T` locally, for the collision witness. -/
def collisionFile : SchemaFile :=
  { package := ["p"], imports := [], decls := [.message "T" []] }

/-- Witness for `local_and_binding_collision`: `p.T` declared locally and
bound externally at once. -/
theorem local_and_binding_collision_witness :
    ∃ e, resolveSchemaSet [collisionFile] [("p.T", "external::T")] = .error e :=
  local_and_binding_collision [collisionFile] [("p.T", "external::T")] "p.T"
    (by decide) (by decide)

/-- C8: a duplicate field number within one message anywhere in the schema
set makes the run fail with a `ResolutionError`, never silently ignored. -/
theorem duplicate_field_number_is_error (files : List SchemaFile)
    (bindings : List (String × String)) (file : SchemaFile) (mname : String)
    (fields : List FieldSpec)
    (hf : file ∈ files) (hd : Declaration.message mname fields ∈ file.decls)
    (hdup : ¬ (fields.map FieldSpec.number).Nodup) :
    ∃ e, resolveSchemaSet files bindings = .error e := by
  cases hres : resolveSchemaSet files bindings with
  | error e => exact ⟨e, rfl⟩
  | ok rds =>
    exfalso
    obtain ⟨_, _, h3, _⟩ := resolveSchemaSet_ok hres
    have hmem : (fullyQualified file.package mname, Declaration.message mname fields) ∈
        localDeclarations files := by
      unfold localDeclarations
      exact List.mem_flatMap.2 ⟨file, hf,
        List.mem_map.2 ⟨Declaration.message mname fields, hd, rfl⟩⟩
    have hdupSome : (dupFieldNumber (Declaration.message mname fields)).isSome = true := by
      show (firstDup (fields.map FieldSpec.number)).isSome = true
      rcases hfd : firstDup (fields.map FieldSpec.number) with _ | v
      · exact absurd ((firstDup_eq_none_iff _).1 hfd) hdup
      · rfl
    unfold checkFieldNumbers at h3
    split at h3
    · cases h3
    · rename_i hfind
      exact List.find?_eq_none.1 hfind _ hmem hdupSome

/-- A schema file whose message reuses field number 1, for the duplicate
number witness. -/
def dupNumberFile : SchemaFile :=
  { package := ["p"], imports := [],
    decls := [.message "M"
      [{ name := "a", number := 1, type := .primitive "int32", mode := .singular },
       { name := "b", number := 1, type := .primitive "int32", mode := .singular }]] }

/-- Witness for `duplicate_field_number_is_error`: field number 1 used twice
in one message. -/
theorem duplicate_field_number_is_error_witness :
    ∃ e, resolveSchemaSet [dupNumberFile] [] = .error e :=
  duplicate_field_number_is_error [dupNumberFile] [] dupNumberFile "M"
    [{ name := "a", number := 1, type := .primitive "int32", mode := .singular },
     { name := "b", number := 1, type := .primitive "int32", mode := .singular }]
    (by decide) (by decide) (by decide)

lemma resolveDecl_name {st : List (String × SymbolEntry)} {nd : String × Declaration}
    {rd : ResolvedDecl} (h : resolveDecl st nd = .ok rd) : rd.name = nd.1 := by
  unfold resolveDecl at h
  split at h
  · split at h
    · cases h
    · injection h with h
      subst h
      rfl
  · injection h with h
    subst h
    rfl
  · split at h
    · cases h
    · injection h with h
      subst h
      rfl

lemma resolveDecls_names {st : List (String × SymbolEntry)} :
    ∀ {l : List (String × Declaration)} {rds : List ResolvedDecl},
      resolveDecls st l = .ok rds → rds.map ResolvedDecl.name = l.map Prod.fst := by
  intro l
  induction l with
  | nil =>
    intro rds h
    injection h with h
    subst h
    rfl
  | cons a t ih =>
    intro rds h
    rw [resolveDecls] at h
    split at h
    · cases h
    · rename_i rd hrd
      split at h
      · cases h
      · rename_i rds' hrds'
        injection h with h
        subst h
        rw [List.map_cons, List.map_cons, resolveDecl_name hrd, ih hrds']

lemma resolveDecls_mem {st : List (String × SymbolEntry)} :
    ∀ {l : List (String × Declaration)} {rds : List ResolvedDecl},
      resolveDecls st l = .ok rds →
      ∀ nd ∈ l, ∃ rd ∈ rds, resolveDecl st nd = .ok rd := by
  intro l
  induction l with
  | nil =>
    intro rds _ nd hnd
    cases hnd
  | cons a t ih =>
    intro rds h nd hnd
    rw [resolveDecls] at h
    split at h
    · cases h
    · rename_i rd hrd
      split at h
      · cases h
      · rename_i rds' hrds'
        injection h with h
        subst h
        rcases List.mem_cons.1 hnd with hnd | hnd
        · exact ⟨rd, List.mem_cons_self _ _, hnd ▸ hrd⟩
        · obtain ⟨rd', hm, he⟩ := ih hrds' nd hnd
          exact ⟨rd', List.mem_cons_of_mem _ hm, he⟩

lemma resolveDecls_mem_rev {st : List (String × SymbolEntry)} :
    ∀ {l : List (String × Declaration)} {rds : List ResolvedDecl},
      resolveDecls st l = .ok rds →
      ∀ rd ∈ rds, ∃ nd ∈ l, resolveDecl st nd = .ok rd := by
  intro l
  induction l with
  | nil =>
    intro rds h rd hrd
    injection h with h
    subst h
    cases hrd
  | cons a t ih =>
    intro rds h rd hrd
    rw [resolveDecls] at h
    split at h
    · cases h
    · rename_i rd' hrd'
      split at h
      · cases h
      · rename_i rds' hrds'
        injection h with h
        subst h
        rcases List.mem_cons.1 hrd with hrd | hrd
        · exact ⟨a, List.mem_cons_self _ _, hrd ▸ hrd'⟩
        · obtain ⟨nd, hm, he⟩ := ih hrds' rd hrd
          exact ⟨nd, List.mem_cons_of_mem _ hm, he⟩

lemma resolveFields_mem {st : List (String × SymbolEntry)} :
    ∀ {fields : List FieldSpec} {rfs : List ResolvedField},
      resolveFields st fields = .ok rfs →
      ∀ f ∈ fields, ∃ rf ∈ rfs, rf.name = f.name ∧ resolveTypeRef st f.type = .ok rf.type := by
  intro fields
  induction fields with
  | nil =>
    intro rfs _ f hf
    cases hf
  | cons a t ih =>
    intro rfs h f hf
    rw [resolveFields] at h
    split at h
    · cases h
    · rename_i rt hrt
      split at h
      · cases h
      · rename_i rts hrts
        injection h with h
        subst h
        rcases List.mem_cons.1 hf with hf | hf
        · subst hf
          exact ⟨_, List.mem_cons_self _ _, rfl, hrt⟩
        · obtain ⟨rf, hm, he⟩ := ih hrts f hf
          exact ⟨rf, List.mem_cons_of_mem _ hm, he⟩

lemma resolveDecl_message {st : List (String × SymbolEntry)} {k mname : String}
    {fields : List FieldSpec} {rd : ResolvedDecl}
    (h : resolveDecl st (k, Declaration.message mname fields) = .ok rd) :
    ∃ rfs, resolveFields st fields = .ok rfs ∧ rd = .message k rfs := by
  simp only [resolveDecl] at h
  split at h
  · cases h
  · rename_i rfs hrfs
    injection h with h
    exact ⟨rfs, hrfs, h.symm⟩

lemma resolveDecl_enum {st : List (String × SymbolEntry)} {k ename : String}
    {variants : List (String × Nat)} {rd : ResolvedDecl}
    (h : resolveDecl st (k, Declaration.enum ename variants) = .ok rd) :
    rd = .enum k variants := by
  simp only [resolveDecl] at h
  exact (Except.ok.inj h).symm

lemma resolveMethods_mem {st : List (String × SymbolEntry)} :
    ∀ {methods : List MethodSpec} {rms : List ResolvedMethod},
      resolveMethods st methods = .ok rms →
      ∀ m ∈ methods, ∃ rm ∈ rms, rm.name = m.name ∧ rm.streaming = m.streaming ∧
        resolveTypeRef st m.request = .ok rm.request ∧
        resolveTypeRef st m.response = .ok rm.response := by
  intro methods
  induction methods with
  | nil =>
    intro rms _ m hm
    cases hm
  | cons a t ih =>
    intro rms h m hm
    rw [resolveMethods] at h
    split at h
    · cases h
    · rename_i rq hrq
      split at h
      · cases h
      · rename_i rs hrs
        split at h
        · cases h
        · rename_i rms' hrms'
          injection h with h
          subst h
          rcases List.mem_cons.1 hm with rfl | hm
          · exact ⟨_, List.mem_cons_self _ _, rfl, rfl, hrq, hrs⟩
          · obtain ⟨rm, h1, h2⟩ := ih hrms' m hm
            exact ⟨rm, List.mem_cons_of_mem _ h1, h2⟩

lemma resolveDecl_service {st : List (String × SymbolEntry)} {k sname : String}
    {methods : List MethodSpec} {rd : ResolvedDecl}
    (h : resolveDecl st (k, Declaration.service sname methods) = .ok rd) :
    ∃ rms, resolveMethods st methods = .ok rms ∧ rd = .service k rms := by
  simp only [resolveDecl] at h
  split at h
  · cases h
  · rename_i rms hrms
    injection h with h
    exact ⟨rms, hrms, h.symm⟩

lemma symbolTable_lookup_of_binding {files : List SchemaFile}
    {bindings : List (String × String)} {n target : String}
    (hn : n ∉ (localDeclarations files).map Prod.fst)
    (hb : bindings.lookup n = some target) :
    (symbolTable files bindings).lookup n = some (.externalTarget target) := by
  unfold symbolTable
  rw [lookup_append_right, lookup_map_pair, hb]
  · rfl
  · rw [List.map_map]
    exact hn

lemma generate_definedType_mem {rds : List ResolvedDecl} {item : GenItem} {m : String}
    (hi : item ∈ generate rds) (hm : item.definedType = some m) :
    m ∈ rds.map ResolvedDecl.name := by
  unfold generate at hi
  obtain ⟨rd, hrd, hitem⟩ := List.mem_flatMap.1 hi
  refine List.mem_map.2 ⟨rd, hrd, ?_⟩
  cases rd with
  | message n fields =>
    simp only [genDecl, List.mem_singleton] at hitem
    subst hitem
    exact Option.some.inj hm
  | enum n variants =>
    simp only [genDecl, List.mem_singleton] at hitem
    subst hitem
    exact Option.some.inj hm
  | service n methods =>
    simp only [genDecl, List.mem_cons, List.mem_singleton, List.not_mem_nil, or_false] at hitem
    rcases hitem with hitem | hitem <;> subst hitem <;> cases hm

/-- C1: for every type reference bound to an external binding that survives
resolution, the generated output contains no locally generated definition of
the bound name, every message field written against that name is emitted
with the binding's opaque target path, and every service method whose
request or response is written against that name appears in both stubs with
the target path rendered in that position. -/
theorem external_binding_not_redefined (files : List SchemaFile)
    (bindings : List (String × String)) (n target : String) (out : List GenItem)
    (hb : bindings.lookup n = some target)
    (hok : compileSchemaSet files bindings = .ok out) :
    (∀ item ∈ out, item.definedType ≠ some n) ∧
    (∀ file ∈ files, ∀ mname fields, Declaration.message mname fields ∈ file.decls →
      ∀ f ∈ fields, f.type = TypeRef.named n →
        ∃ flds, GenItem.typeDef (fullyQualified file.package mname) flds ∈ out ∧
          (f.name, target) ∈ flds) ∧
    (∀ file ∈ files, ∀ sname methods, Declaration.service sname methods ∈ file.decls →
      ∀ m ∈ methods, ∃ ms,
        GenItem.clientStub (fullyQualified file.package sname) ms ∈ out ∧
        GenItem.serverStub (fullyQualified file.package sname) ms ∈ out ∧
        ∃ rq rs, (m.name, rq, rs, m.streaming) ∈ ms ∧
          (m.request = TypeRef.named n → rq = target) ∧
          (m.response = TypeRef.named n → rs = target)) := by
  unfold compileSchemaSet at hok
  split at hok
  · cases hok
  · rename_i rds hres
    injection hok with hok
    subst hok
    obtain ⟨_, h2, _, h4⟩ := resolveSchemaSet_ok hres
    have hnotlocal : n ∉ (localDeclarations files).map Prod.fst :=
      checkBindings_ok h2 (n, target) (lookup_mem hb)
    refine ⟨?_, ?_, ?_⟩
    · intro item hitem hdef
      exact hnotlocal (resolveDecls_names h4 ▸ generate_definedType_mem hitem hdef)
    · intro file hfile mname fields hdecl f hf hft
      have hmem : (fullyQualified file.package mname, Declaration.message mname fields) ∈
          localDeclarations files := by
        unfold localDeclarations
        exact List.mem_flatMap.2 ⟨file, hfile,
          List.mem_map.2 ⟨Declaration.message mname fields, hdecl, rfl⟩⟩
      obtain ⟨rd, hrd, hdc⟩ := resolveDecls_mem h4 _ hmem
      obtain ⟨rfs, hrfs, hrdeq⟩ := resolveDecl_message hdc
      subst hrdeq
      obtain ⟨rf, hrf, hname, htype⟩ := resolveFields_mem hrfs f hf
      rw [hft] at htype
      rw [resolveTypeRef, symbolTable_lookup_of_binding hnotlocal hb] at htype
      injection htype with htype
      refine ⟨rfs.map fun f => (f.name, renderType f.type), ?_, ?_⟩
      · unfold generate
        exact List.mem_flatMap.2 ⟨_, hrd, by simp [genDecl]⟩
      · refine List.mem_map.2 ⟨rf, hrf, ?_⟩
        rw [hname, ← htype]
        rfl
    · intro file hfile sname methods hdecl m hm
      have hmem : (fullyQualified file.package sname, Declaration.service sname methods) ∈
          localDeclarations files := by
        unfold localDeclarations
        exact List.mem_flatMap.2 ⟨file, hfile,
          List.mem_map.2 ⟨Declaration.service sname methods, hdecl, rfl⟩⟩
      obtain ⟨rd, hrd, hdc⟩ := resolveDecls_mem h4 _ hmem
      obtain ⟨rms, hrms, hrdeq⟩ := resolveDecl_service hdc
      subst hrdeq
      obtain ⟨rm, hrm, hname, hstream, hreq, hresp⟩ := resolveMethods_mem hrms m hm
      refine ⟨rms.map fun m => (m.name, renderType m.request, renderType m.response,
        m.streaming), ?_, ?_, ?_⟩
      · unfold generate
        exact List.mem_flatMap.2 ⟨_, hrd, by simp [genDecl]⟩
      · unfold generate
        exact List.mem_flatMap.2 ⟨_, hrd, by simp [genDecl]⟩
      · refine ⟨renderType rm.request, renderType rm.response, ?_, ?_, ?_⟩
        · refine List.mem_map.2 ⟨rm, hrm, ?_⟩
          rw [hname, hstream]
        · intro hreqn
          rw [hreqn] at hreq
          rw [resolveTypeRef, symbolTable_lookup_of_binding hnotlocal hb] at hreq
          injection hreq with hreq
          rw [← hreq]
          rfl
        · intro hrespn
          rw [hrespn] at hresp
          rw [resolveTypeRef, symbolTable_lookup_of_binding hnotlocal hb] at hresp
          injection hresp with hresp
          rw [← hresp]
          rfl

/-- The schema file of the spec's external-binding scenario: `a.schema`
declares a message field of type `pkg.Common` and a service whose method
exchanges `pkg.Common` in both directions. -/
def externalScenarioFile : SchemaFile :=
  { package := ["apkg"], imports := [],
    decls := [.message "M"
      [{ name := "f", number := 1, type := .named "pkg.Common", mode := .singular }],
      .service "S"
      [{ name := "Call", request := .named "pkg.Common", response := .named "pkg.Common",
         streaming := .unary }]] }

/-- The resolved form of `externalScenarioFile` under the binding
`pkg.Common ↦ external::Common`. -/
def externalScenarioResolved : List ResolvedDecl :=
  [.message "apkg.M"
    [{ name := "f", number := 1, type := .externalRef "pkg.Common" "external::Common",
       mode := .singular }],
   .service "apkg.S"
    [{ name := "Call", request := .externalRef "pkg.Common" "external::Common",
       response := .externalRef "pkg.Common" "external::Common", streaming := .unary }]]

/-- Witness for `external_binding_not_redefined`: binding
`pkg.Common ↦ external::Common` makes the generated output reference
`external::Common` in the message field and in both stubs of the service
method, and define no local `pkg.Common`. -/
theorem external_binding_not_redefined_witness :
    (∀ item ∈ generate externalScenarioResolved,
      item.definedType ≠ some "pkg.Common") ∧
    (∀ file ∈ [externalScenarioFile], ∀ mname fields,
      Declaration.message mname fields ∈ file.decls →
      ∀ f ∈ fields, f.type = TypeRef.named "pkg.Common" →
        ∃ flds, GenItem.typeDef (fullyQualified file.package mname) flds ∈
            generate externalScenarioResolved ∧
          (f.name, "external::Common") ∈ flds) ∧
    (∀ file ∈ [externalScenarioFile], ∀ sname methods,
      Declaration.service sname methods ∈ file.decls →
      ∀ m ∈ methods, ∃ ms,
        GenItem.clientStub (fullyQualified file.package sname) ms ∈
          generate externalScenarioResolved ∧
        GenItem.serverStub (fullyQualified file.package sname) ms ∈
          generate externalScenarioResolved ∧
        ∃ rq rs, (m.name, rq, rs, m.streaming) ∈ ms ∧
          (m.request = TypeRef.named "pkg.Common" → rq = "external::Common") ∧
          (m.response = TypeRef.named "pkg.Common" → rs = "external::Common")) :=
  external_binding_not_redefined [externalScenarioFile] [("pkg.Common", "external::Common")]
    "pkg.Common" "external::Common" (generate externalScenarioResolved) (by decide) rfl

/-- Whether a declaration declares a type (messages and enums do; services
declare only stubs). -/
def Declaration.isType : Declaration → Bool
  | .message _ _ => true
  | .enum _ _ => true
  | .service _ _ => false

lemma symbolTable_empty_lookup_local {files : List SchemaFile} {n : String} {v : SymbolEntry}
    (h : (symbolTable files []).lookup n = some v) : ∃ d, v = .localDecl d := by
  have hm := lookup_mem h
  unfold symbolTable at hm
  rw [List.map_nil, List.append_nil] at hm
  obtain ⟨nd, _, heq⟩ := List.mem_map.1 hm
  injection heq with e1 e2
  exact ⟨nd.2, e2.symm⟩

lemma resolveTypeRef_empty_no_external {files : List SchemaFile} {r : TypeRef}
    {rt : ResolvedType}
    (h : resolveTypeRef (symbolTable files []) r = .ok rt) : rt.isExternal = false := by
  cases r with
  | primitive n =>
    simp only [resolveTypeRef] at h
    rw [← Except.ok.inj h]
    rfl
  | named n =>
    rw [resolveTypeRef] at h
    split at h
    · injection h with h
      subst h
      rfl
    · rename_i t hlook
      obtain ⟨d, hd⟩ := symbolTable_empty_lookup_local hlook
      cases hd
    · cases h

lemma resolveFields_empty_no_external {files : List SchemaFile} :
    ∀ {fields : List FieldSpec} {rfs : List ResolvedField},
      resolveFields (symbolTable files []) fields = .ok rfs →
      ∀ rf ∈ rfs, rf.type.isExternal = false := by
  intro fields
  induction fields with
  | nil =>
    intro rfs h rf hrf
    injection h with h
    subst h
    cases hrf
  | cons a t ih =>
    intro rfs h rf hrf
    rw [resolveFields] at h
    split at h
    · cases h
    · rename_i rt hrt
      split at h
      · cases h
      · rename_i rts hrts
        injection h with h
        subst h
        rcases List.mem_cons.1 hrf with hrf | hrf
        · subst hrf
          exact resolveTypeRef_empty_no_external hrt
        · exact ih hrts rf hrf

lemma resolveMethods_empty_no_external {files : List SchemaFile} :
    ∀ {methods : List MethodSpec} {rms : List ResolvedMethod},
      resolveMethods (symbolTable files []) methods = .ok rms →
      ∀ rm ∈ rms, rm.request.isExternal = false ∧ rm.response.isExternal = false := by
  intro methods
  induction methods with
  | nil =>
    intro rms h rm hrm
    injection h with h
    subst h
    cases hrm
  | cons a t ih =>
    intro rms h rm hrm
    rw [resolveMethods] at h
    split at h
    · cases h
    · rename_i rq hrq
      split at h
      · cases h
      · rename_i rs hrs
        split at h
        · cases h
        · rename_i rms' hrms'
          injection h with h
          subst h
          rcases List.mem_cons.1 hrm with hrm | hrm
          · subst hrm
            exact ⟨resolveTypeRef_empty_no_external hrq,
              resolveTypeRef_empty_no_external hrs⟩
          · exact ih hrms' rm hrm

lemma resolveDecl_empty_no_external {files : List SchemaFile} {nd : String × Declaration}
    {rd : ResolvedDecl} (h : resolveDecl (symbolTable files []) nd = .ok rd) :
    rd.usesExternal = false := by
  unfold resolveDecl at h
  split at h
  · split at h
    · cases h
    · rename_i rfs hrfs
      injection h with h
      subst h
      simp only [ResolvedDecl.usesExternal, List.any_eq_false]
      intro rf hrf
      simp [resolveFields_empty_no_external hrfs rf hrf]
  · injection h with h
    subst h
    rfl
  · split at h
    · cases h
    · rename_i rms hrms
      injection h with h
      subst h
      simp only [ResolvedDecl.usesExternal, List.any_eq_false]
      intro rm hrm
      obtain ⟨h1, h2⟩ := resolveMethods_empty_no_external hrms rm hrm
      simp [h1, h2]

/-- C9: the second compilation invocation of `build.rs` carries an empty
external-binding table, so resolving its schema set binds no reference to an
external target, and the generator emits a local definition for every
message or enum type declared in the set — including any under the
`.chariott.common.v1` package reached through its search paths. -/
theorem detection_generates_locally (files : List SchemaFile) (rds : List ResolvedDecl)
    (hok : resolveSchemaSet files detectionCall.config.extern_paths = .ok rds) :
    detectionCall.config.extern_paths = [] ∧
    (∀ rd ∈ rds, rd.usesExternal = false) ∧
    (∀ file ∈ files, ∀ d ∈ file.decls, d.isType = true →
      ∃ item ∈ generate rds,
        item.definedType = some (fullyQualified file.package d.name)) := by
  have hb : detectionCall.config.extern_paths = ([] : List (String × String)) := rfl
  rw [hb] at hok
  obtain ⟨_, _, _, h4⟩ := resolveSchemaSet_ok hok
  refine ⟨rfl, ?_, ?_⟩
  · intro rd hrd
    obtain ⟨nd, _, hde⟩ := resolveDecls_mem_rev h4 rd hrd
    exact resolveDecl_empty_no_external hde
  · intro file hfile d hd htype
    cases d with
    | message mname fields =>
      have hmem : (fullyQualified file.package mname, Declaration.message mname fields) ∈
          localDeclarations files := by
        unfold localDeclarations
        exact List.mem_flatMap.2 ⟨file, hfile,
          List.mem_map.2 ⟨Declaration.message mname fields, hd, rfl⟩⟩
      obtain ⟨rd, hrd, hdc⟩ := resolveDecls_mem h4 _ hmem
      obtain ⟨rfs, _, hrdeq⟩ := resolveDecl_message hdc
      subst hrdeq
      refine ⟨.typeDef (fullyQualified file.package mname)
        (rfs.map fun f => (f.name, renderType f.type)), ?_, rfl⟩
      unfold generate
      exact List.mem_flatMap.2 ⟨_, hrd, by simp [genDecl]⟩
    | enum ename variants =>
      have hmem : (fullyQualified file.package ename, Declaration.enum ename variants) ∈
          localDeclarations files := by
        unfold localDeclarations
        exact List.mem_flatMap.2 ⟨file, hfile,
          List.mem_map.2 ⟨Declaration.enum ename variants, hd, rfl⟩⟩
      obtain ⟨rd, hrd, hdc⟩ := resolveDecls_mem h4 _ hmem
      have hrdeq := resolveDecl_enum hdc
      subst hrdeq
      refine ⟨.enumDef (fullyQualified file.package ename) variants, ?_, rfl⟩
      unfold generate
      exact List.mem_flatMap.2 ⟨_, hrd, by simp [genDecl]⟩
    | service sname methods => cases htype

/-- A schema file under the shared `chariott.common.v1` package for the
local-generation witness. -/
def detectionLocalFile : SchemaFile :=
  { package := ["chariott", "common", "v1"], imports := [],
    decls := [.message "Value"
      [{ name := "v", number := 1, type := .primitive "int32", mode := .singular }]] }

/-- Witness for `detection_generates_locally`: with the second invocation's
empty binding table, `chariott.common.v1.Value` is resolved without external
references and defined locally in the output. -/
theorem detection_generates_locally_witness :
    detectionCall.config.extern_paths = [] ∧
    (∀ rd ∈ [ResolvedDecl.message "chariott.common.v1.Value"
        [{ name := "v", number := 1, type := .primitive "int32", mode := .singular }]],
      rd.usesExternal = false) ∧
    (∀ file ∈ [detectionLocalFile], ∀ d ∈ file.decls, d.isType = true →
      ∃ item ∈ generate [ResolvedDecl.message "chariott.common.v1.Value"
          [{ name := "v", number := 1, type := .primitive "int32", mode := .singular }]],
        item.definedType = some (fullyQualified file.package d.name)) :=
  detection_generates_locally [detectionLocalFile]
    [ResolvedDecl.message "chariott.common.v1.Value"
      [{ name := "v", number := 1, type := .primitive "int32", mode := .singular }]]
    rfl

end Chariott
